import Mathlib

/-!
Shallow embedding of the NMEA 0183 encoding layer of signalk-to-nmea0183:
the utility module (`nmea.js`, present as `src/unnamed/part_000`) and the
two sentence builders `src/sentences/APB.js` and `src/sentences/RMB.js`.

Modelling conventions:
* JS strings are `List Char`; `charCodeAt` is `Char.toNat` (the inputs of
  interest are ASCII, where the two agree).
* JS numbers are modelled exactly as rationals (`ℚ`); `NaN` is modelled by
  the extra constructor `JSNum.nan`.  The infinities are not modelled: for the
  code paths embedded here every non-finite double behaves like `NaN`
  (the `Number.isFinite` guards reject both alike).  Individual JS double
  operations round their results; the rational model computes exactly.  For
  every concrete value appearing in the development the rounded double and
  the exact rational agree to far more digits than the `toFixed` renderings
  keep.
* `Math.PI` is the exact rational value of the IEEE-754 double `Math.PI`.
* The exact-rational model of the angle-normalization loops terminates on
  every input, which binary64 does not: `deg ± 360` rounds back to `deg`
  once `|deg| ≥ 2^62`.  The rounded loop step is modelled separately
  (`fl64pos`, `flSubStep`) to exhibit that divergence.
* JS exceptions are modelled with `Except`; `undefined`/`null` inputs with
  `Option`.
-/

/-- The hex-digit table `m_hex` of `nmea.js`. -/
def m_hex : List Char :=
  [ '0', '1', '2', '3', '4', '5', '6', '7', '8', '9', 'A', 'B', 'C', 'D', 'E', 'F']

/-- The `for` loop of `checksum` in `nmea.js`: running XOR of the character
codes, stopping (`break`) at the first `'*'`.  `cs` is the accumulator. -/
def csLoop (cs : Nat) : List Char → Nat
  | [] => cs
  | c :: rest => if c = '*' then cs else csLoop (cs ^^^ c.toNat) rest

/-- `checksum(sentenceWithoutDollar)` of `nmea.js`: XOR of all chars until
`'*'` (excluded), rendered via `m_hex[(cs >> 4) & 0x0f]` and `m_hex[cs & 0x0f]`.
(The JS indexing cannot go out of bounds since both indices are `< 16`;
the `getD` default is never used.) -/
def checksum (sentenceWithoutDollar : List Char) : List Char :=
  let cs := csLoop 0 sentenceWithoutDollar
  [ m_hex.getD ((cs >>> 4) &&& 15) ' ', m_hex.getD (cs &&& 15) ' ']

/-- JS `Array.prototype.join(',')` on a list of strings. -/
def jsStrJoin : List (List Char) → List Char
  | [] => []
  | [x] => x
  | x :: xs => x ++ ',' :: jsStrJoin xs

/-- JS `String.prototype.indexOf('*')`: index of the first `'*'`, `none`
standing for JS's `-1`. -/
def jsIndexOfStar : List Char → Option Nat
  | [] => none
  | c :: cs => if c = '*' then some 0 else (jsIndexOfStar cs).map (· + 1)

/-- `indexOf('*')` combined with `slice`: the prefix of `l` strictly before
the first `'*'` (all of `l` when there is none), i.e.
`starIdx === -1 ? l : l.slice(0, starIdx)`. -/
def upToStar (l : List Char) : List Char :=
  match jsIndexOfStar l with
  | some i => l.take i
  | none => l

/-- `toSentence(parts)` of `nmea.js`: join the parts with commas, add a
leading `'$'` if not present, cut at the first `'*'` and append `'*'`
followed by the checksum of the body without the leading `'$'`. -/
def toSentence (parts : List (List Char)) : List Char :=
  let body := jsStrJoin parts
  let prefixed := if body.head? = some '$' then body else '$' :: body
  let checksumVal := checksum ((upToStar prefixed).drop 1)
  let head := upToStar prefixed
  head ++ '*' :: checksumVal

/-- Spec-side rendering of a checksum byte, following the spec's words:
exactly two uppercase hexadecimal digits, zero-padded (high digit first). -/
def specHexByte (b : Nat) : List Char :=
  [ m_hex.getD (b / 16 % 16) ' ', m_hex.getD (b % 16) ' ']

/-- Spec-side checksum value: the XOR of each character code of the string. -/
def specXorFold (s : List Char) : Nat :=
  s.foldl (fun a c => a ^^^ c.toNat) 0

/-- Spec-side sentence assembly, following the spec's words: join the fields
with commas, prepend `'$'` only if not already present, strip any embedded
`'*'…` suffix, and append `'*'` plus the checksum of the body between the
leading `'$'` (exclusive) and the `'*'` (exclusive). -/
def specAssemble (fields : List (List Char)) : List Char :=
  let body := jsStrJoin fields
  let prefixed := if body.head? = some '$' then body else '$' :: body
  let stripped := prefixed.takeWhile (fun c => c ≠ '*')
  stripped ++ '*' :: checksum (stripped.drop 1)

/-! ## The JS number model and numeric formatting -/

/-- Finite-or-NaN model of a JS number (see the module header: the
infinities are not modelled). -/
inductive JSNum
  | num (q : ℚ)
  | nan
deriving DecidableEq

/-- `Math.abs` (`NaN` propagates). -/
def jsAbs : JSNum → JSNum
  | .num q => .num |q|
  | .nan => .nan

/-- Division by a (nonzero) numeric literal (`NaN` propagates). -/
def jsDivC (v : JSNum) (c : ℚ) : JSNum :=
  match v with
  | .num q => .num (q / c)
  | .nan => .nan

/-- Multiplication by a numeric literal (`NaN` propagates). -/
def jsMulC (v : JSNum) (c : ℚ) : JSNum :=
  match v with
  | .num q => .num (q * c)
  | .nan => .nan

/-- JS `v >= 0 ? 'R' : 'L'` (the comparison is false for `NaN`). -/
def steerChar : JSNum → Char
  | .num q => if 0 ≤ q then 'R' else 'L'
  | .nan => 'L'

/-- `Number.isFinite` on a possibly-undefined value. -/
def isFiniteO : Option JSNum → Bool
  | some (.num _) => true
  | _ => false

/-- Decimal rendering of a natural number (JS number-to-string on a
nonnegative integer), with explicit fuel for structural recursion; the
wrapper always supplies enough.  Digit characters come from `m_hex`. -/
def natReprAux : Nat → Nat → List Char
  | 0, _ => []
  | fuel + 1, n =>
    if n < 10 then [m_hex.getD n ' ']
    else natReprAux fuel (n / 10) ++ [m_hex.getD (n % 10) ' ']

/-- Decimal rendering of a natural number. -/
def natRepr (n : Nat) : List Char := natReprAux (n + 1) n

/-- Rendering stage of `toFixed`: the already-rounded scaled integer `n`
(the value times `10 ^ d`), written with exactly `d` digits after the
decimal point (no point when `d = 0`). -/
def toFixedInt (d : Nat) (n : Int) : List Char :=
  let sgn : List Char := if n < 0 then ['-'] else []
  let ds := natRepr n.natAbs
  if d = 0 then sgn ++ ds
  else
    let ds2 := List.replicate (d + 1 - ds.length) '0' ++ ds
    sgn ++ ds2.take (ds2.length - d) ++ '.' :: ds2.drop (ds2.length - d)

/-- JS `Number.prototype.toFixed(d)` on an exact rational: round to `d`
fractional digits (ties toward the larger value, per the ECMAScript spec),
then render. -/
def toFixedQ (d : Nat) (q : ℚ) : List Char :=
  toFixedInt d ⌊q * (10 : ℚ) ^ d + 1 / 2⌋

/-- `toFixed` on the JS-number model: `NaN.toFixed(d)` is `"NaN"`. -/
def toFixedJ (d : Nat) : JSNum → List Char
  | .num q => toFixedQ d q
  | .nan => [ 'N', 'a', 'N']

/-- `padd(n, p)` of `nmea.js` with the default pad character `'0'` (no
caller in this repository passes `c`).  The pad has as many characters as
the decimal rendering of `p` — this is literally what the JS computes with
`(''+p).length` — and `slice(-pad.length)` keeps only the last `pad.length`
characters of `pad + n`. -/
def padd (n : List Char) (p : Nat) : List Char :=
  let pad := List.replicate (natRepr p).length '0'
  let s := pad ++ n
  s.drop (s.length - pad.length)

/-- `decimalDegreesToDegreesAndDecimalMinutes(degrees)` of `nmea.js`:
`[Math.floor(|degrees|), (|degrees| % 1) * 60, dir]` where `dir = -1` for
negative input and `1` otherwise (0 counts as N/E). -/
def decimalDegreesToDegreesAndDecimalMinutes (degrees : ℚ) : ℚ × ℚ × Int :=
  let dir : Int := if degrees < 0 then -1 else 1
  let d : ℚ := if degrees < 0 then -degrees else degrees
  let degrees_out : ℚ := (⌊d⌋ : ℚ)
  let minutes : ℚ := (d - (⌊d⌋ : ℚ)) * 60
  (degrees_out, minutes, dir)

/-- Error message of `toNmeaDegreesLatitude` (the JS appends the offending
value to the message; that rendering is elided here). -/
def latErrMsg : List Char := ( "invalid input to toNmeaDegreesLatitude").toList

/-- Error message of `toNmeaDegreesLongitude`. -/
def lonErrMsg : List Char := ( "invalid input to toNmeaDegreesLongitude").toList

/-- `toNmeaDegreesLatitude(inVal)` of `nmea.js`: throws unless the input is
finite and in `[-90, 90]`, otherwise renders `ddmm.mmmm,N|S` through `padd`. -/
def toNmeaDegreesLatitude (inVal : JSNum) : Except (List Char) (List Char) :=
  match inVal with
  | .nan => .error latErrMsg
  | .num q =>
    if q < -90 ∨ 90 < q then .error latErrMsg
    else
      let t := decimalDegreesToDegreesAndDecimalMinutes q
      .ok (padd (toFixedQ 0 t.1) 2 ++ padd (toFixedQ 4 t.2.1) 7 ++
        ',' :: [if t.2.2 > 0 then 'N' else 'S'])

/-- `toNmeaDegreesLongitude(inVal)` of `nmea.js`: throws unless the input is
finite and in `[-180, 180)`, otherwise renders `dddmm.mmmm,E|W`. -/
def toNmeaDegreesLongitude (inVal : JSNum) : Except (List Char) (List Char) :=
  match inVal with
  | .nan => .error lonErrMsg
  | .num q =>
    if q < -180 ∨ 180 ≤ q then .error lonErrMsg
    else
      let t := decimalDegreesToDegreesAndDecimalMinutes q
      .ok (padd (toFixedQ 0 t.1) 3 ++ padd (toFixedQ 4 t.2.1) 7 ++
        ',' :: [if t.2.2 > 0 then 'E' else 'W'])

/-- The exact rational value of the IEEE-754 double `Math.PI`
(`884279719003555 * 2 ^ -48`). -/
def PI : ℚ := 884279719003555 / 281474976710656

/-- First `while` loop of `radToDeg360` in `nmea.js`:
`while (deg < 0) deg += 360`, over exact rationals, where the step always
progresses.  CAVEAT: the JS loop runs on binary64 doubles, where
`deg + 360` rounds back to `deg` once `deg ≤ -2^62`, so the source loop
diverges on such inputs while this model terminates — see `flSubStep` and
`C6_float_loop_diverges` for the rounded-step behaviour. -/
def whileAdd360 (deg : ℚ) : ℚ :=
  if h : deg < 0 then whileAdd360 (deg + 360) else deg
termination_by (⌈-deg / 360⌉).toNat
decreasing_by
  have h1 : -(deg + 360) / 360 = -deg / 360 - 1 := by ring
  have h2 : (0 : ℚ) < -deg / 360 := by
    apply div_pos
    · linarith
    · norm_num
  have h3 : (0 : ℤ) < ⌈-deg / 360⌉ := Int.ceil_pos.mpr h2
  have h4 : ⌈-(deg + 360) / 360⌉ = ⌈-deg / 360⌉ - 1 := by
    rw [h1, Int.ceil_sub_one]
  omega

/-- Second `while` loop of `radToDeg360` in `nmea.js`:
`while (deg >= 360) deg -= 360`, over exact rationals, where the step
always progresses.  CAVEAT: the JS loop runs on binary64 doubles, where
`deg - 360` rounds back to `deg` once `deg ≥ 2^62` (and `deg` is
`Infinity` after `rad * 180` overflows), so the source loop diverges on
such inputs while this model terminates — see `flSubStep` and
`C6_float_loop_diverges`. -/
def whileSub360 (deg : ℚ) : ℚ :=
  if h : 360 ≤ deg then whileSub360 (deg - 360) else deg
termination_by (⌊deg / 360⌋).toNat
decreasing_by
  have h1 : (deg - 360) / 360 = deg / 360 - 1 := by ring
  have h2 : (1 : ℚ) ≤ deg / 360 := by
    rw [le_div_iff₀ (by norm_num : (0 : ℚ) < 360)]
    linarith
  have h3 : (1 : ℤ) ≤ ⌊deg / 360⌋ := Int.le_floor.mpr (by exact_mod_cast h2)
  have h4 : ⌊(deg - 360) / 360⌋ = ⌊deg / 360⌋ - 1 := by
    rw [h1, Int.floor_sub_one]
  omega

/-- `radToDeg360(rad)` of `nmea.js`: radians to degrees, then normalized
into `[0, 360)` by the two `while` loops. -/
def radToDeg360 (rad : ℚ) : ℚ :=
  whileSub360 (whileAdd360 (rad * 180 / PI))

/-- `radToDeg360` lifted to the JS-number model: on `NaN` both loop guards
are false and `NaN` propagates through the conversion arithmetic. -/
def radToDeg360J : JSNum → JSNum
  | .num q => .num (radToDeg360 q)
  | .nan => .nan

/-- Binary64 rounding of a positive rational in the normal range: scale
into `[2^52, 2^53)` using the base-2 logarithm, round the significand to an
integer, and scale back.  Rounding of ties is away from zero where IEEE 754
ties to even; the two rules differ only at exact half-ulp ties, which do
not occur at the values this development evaluates.  Overflow, subnormals,
zero and negative inputs play no role in the divergence argument and are
not modelled. -/
def fl64pos (a : ℚ) : ℚ :=
  let e : ℤ := Int.log 2 a - 52
  ((round (a / (2 : ℚ) ^ e) : ℤ) : ℚ) * (2 : ℚ) ^ e

/-- One iteration of the second `while` loop of `radToDeg360` under
binary64 semantics: `deg -= 360` computes the exact difference and rounds
it to the nearest representable double. -/
def flSubStep (deg : ℚ) : ℚ := fl64pos (deg - 360)

/-- ASCII `String.prototype.toUpperCase()` (comparisons on the code
point: `'a'` is 97 and `'z'` is 122). -/
def jsToUpper (s : List Char) : List Char :=
  s.map (fun c => if 97 ≤ c.toNat ∧ c.toNat ≤ 122 then Char.ofNat (c.toNat - 32) else c)

/-- JS `a || b` on an optional string: a falsy value (absent or the empty
string) falls through to the fallback. -/
def jsOrStr (a : Option (List Char)) (b : List Char) : List Char :=
  match a with
  | some s => if s = [] then b else s
  | none => b

/-- `talker()` of `nmea.js`: `(process.env.NMEA_TALKER || 'GP').toUpperCase()`
collapsed to `'GP'` unless it is exactly `'II'`. -/
def talker (env : Option (List Char)) : List Char :=
  let t := jsToUpper (jsOrStr env ( "GP").toList)
  if t = ( "II").toList then ( "II").toList else ( "GP").toList

/-! ## Spec-modelled utilities missing from `src/` -/

/-- Modelled from the spec: `metersToNauticalMiles` — `APB.js` calls
`nmea.mToNm`, which the `nmea.js` under `src/` does not define; the spec
says it multiplies by `1/1852`. -/
def mToNm (m : ℚ) : ℚ := m / 1852

/-- Modelled from the spec: `normalizeAngleDegrees` — `APB.js` calls
`nmea.radsToPositiveDeg`, which the `nmea.js` under `src/` does not define;
the spec says it converts radians to degrees reduced into `[0, 360)`, the
same reduction `radToDeg360` performs. -/
def radsToPositiveDeg (rad : ℚ) : ℚ := radToDeg360 rad

/-! ## The sentence builders -/

/-- Return value of a builder: `APB.js` returns the sentence string itself,
`RMB.js` returns a one-element array. -/
inductive JSRet
  | str (s : List Char)
  | arr (l : List (List Char))
deriving DecidableEq

/-- `true` exactly on an array-valued return. -/
def retIsArr : JSRet → Bool
  | .str _ => false
  | .arr _ => true

/-- The magnetic-bearing fallback of `APB.js`:
`Number.isFinite(nextMag_rad) ? nextMag_rad
  : (Number.isFinite(var_rad) ? trueBearing + var_rad : undefined)`. -/
def apbBearingMag (trueBearing : ℚ) (nextMag_rad var_rad : Option JSNum) : Option ℚ :=
  match nextMag_rad with
  | some (.num m) => some m
  | _ =>
    match var_rad with
    | some (.num v) => some (trueBearing + v)
    | _ => none

/-- Field 13 of `APB.js`: the magnetic bearing rendered with 0 decimals if
known, else the empty field. -/
def apbMagField (bearingMag : Option ℚ) : List Char :=
  match bearingMag with
  | some b => toFixedQ 0 (radsToPositiveDeg b)
  | none => []

/-- The APB builder `f` of `src/sentences/APB.js`.  Inputs are the five
declared Signal K values (absent = `none`); `env` is `process.env.NMEA_TALKER`.
Returns the sentence string (not wrapped in an array), or `none` when
cross-track error or both true-bearing sources are missing / non-finite. -/
def apbF (env : Option (List Char))
    (xte_m trackTrue_rad nextTrue_rad nextMag_rad var_rad : Option JSNum) :
    Option JSRet :=
  let talkerStr := jsToUpper (jsOrStr env ( "GP").toList)
  match xte_m, (if isFiniteO nextTrue_rad then nextTrue_rad else trackTrue_rad) with
  | some (.num xv), some (.num trueBearing) =>
    let xteNm := toFixedQ 3 |mToNm xv|
    let steerDir := if 0 ≤ xv then 'R' else 'L'
    let bearingMag : Option ℚ := apbBearingMag trueBearing nextMag_rad var_rad
    let parts : List (List Char) :=
      [ '$' :: (talkerStr ++ ( "APB").toList),
        [ 'A'], [ 'A'],
        xteNm, [steerDir], [ 'N'], [ 'V'], [ 'V'],
        toFixedQ 0 (radsToPositiveDeg trueBearing), [ 'T'],
        [ '0', '0'],
        toFixedQ 0 (radsToPositiveDeg trueBearing), [ 'T'],
        apbMagField bearingMag,
        [ 'M']]
    some (.str (toSentence parts))
  | _, _ => none

/-- JS `String.prototype.split(',')`. -/
def jsSplitComma : List Char → List (List Char)
  | [] => [[]]
  | c :: cs =>
    if c = ',' then [] :: jsSplitComma cs
    else
      match jsSplitComma cs with
      | [] => [[c]]
      | h :: t => (c :: h) :: t

/-- `s.split(',')[i]` (the indices used by `RMB.js` are always in range, so
the `getD` default is never observed). -/
def splitCommaGet (s : List Char) (i : Nat) : List Char :=
  (jsSplitComma s).getD i []

/-- The range field of `RMB.js`: meters to nautical miles with 2 decimals
when the value is a number, else the empty field. -/
def rmbRangeField (rangeNm : Option JSNum) : List Char :=
  match rangeNm with
  | some rv => toFixedJ 2 (jsDivC rv 1852)
  | none => []

/-- The VMG field of `RMB.js`: m/s to knots (times 1.94384) with 2 decimals
when present, else the empty field. -/
def rmbVmgField (vmg : Option JSNum) : List Char :=
  match vmg with
  | some v => toFixedJ 2 (jsMulC v (194384 / 100000))
  | none => []

/-- Body of the RMB builder (`src/sentences/RMB.js`) inside its `try`:
errors thrown by the coordinate formatters propagate as `Except.error`;
`Except.ok none` is the early `return null` for missing mandatory fields.
Inputs are the Signal K values the body reads via `plugin.getProp`
(`name`/`identifier` for origin and destination are passed separately);
`env` is `process.env.NMEA_TALKER`.  The unused `arrivalTime` lookup of the
source is omitted. -/
def rmbBody (env : Option (List Char))
    (xte : Option JSNum)
    (originName originIdent destName destIdent : Option (List Char))
    (destPos : Option (JSNum × JSNum))
    (rangeNm brgTrue vmg : Option JSNum) :
    Except (List Char) (Option JSRet) :=
  let t := talker env
  let originId := jsOrStr originName (jsOrStr originIdent [])
  let destId := jsOrStr destName (jsOrStr destIdent ( "WAYPOINT").toList)
  match xte, destPos, brgTrue with
  | some xv, some dp, some bv => do
    let xteNm := jsDivC (jsAbs xv) 1852
    let lOrR := steerChar xv
    let destLatStr ← toNmeaDegreesLatitude dp.1
    let destLonStr ← toNmeaDegreesLongitude dp.2
    let rangeNmVal : List Char := rmbRangeField rangeNm
    let brgTrueDeg := radToDeg360J bv
    let vmgStr : List Char := rmbVmgField vmg
    let sentenceParts : List (List Char) :=
      [ t ++ ( "RMB").toList,
        [ 'A'],
        toFixedJ 3 xteNm,
        [lOrR],
        originId,
        destId,
        splitCommaGet destLatStr 0,
        splitCommaGet destLatStr 1,
        splitCommaGet destLonStr 0,
        splitCommaGet destLonStr 1,
        rangeNmVal,
        toFixedJ 1 brgTrueDeg,
        vmgStr,
        [ 'A']]
    return some (.arr [toSentence sentenceParts])
  | _, _, _ => Except.ok none

/-- `rmb` of `src/sentences/RMB.js`: the `try`/`catch` around the body —
any thrown error is caught, logged, and `null` is returned. -/
def rmb (env : Option (List Char)) (xte : Option JSNum)
    (originName originIdent destName destIdent : Option (List Char))
    (destPos : Option (JSNum × JSNum)) (rangeNm brgTrue vmg : Option JSNum) :
    Option JSRet :=
  match rmbBody env xte originName originIdent destName destIdent destPos rangeNm brgTrue vmg with
  | .ok r => r
  | .error _ => none

/-- A string usable verbatim as one sentence field: it contains no comma
(the field separator), no star (the checksum delimiter) and no dollar. -/
def fieldOk (f : List Char) : Prop := ∀ c ∈ f, c ≠ ',' ∧ c ≠ '*' ∧ c ≠ '$'

/-- An optional external string input (waypoint identifier or environment
setting) that will not corrupt the wire format. -/
def optOk : Option (List Char) → Prop
  | some s => fieldOk s
  | none => True

/-! ## Lemmas about the checksum loop -/

theorem csLoop_eq_foldl (s : List Char) (h : '*' ∉ s) (cs : Nat) :
    csLoop cs s = s.foldl (fun a c => a ^^^ c.toNat) cs := by
  induction s generalizing cs with
  | nil => rfl
  | cons c rest ih =>
    have h1 : ¬ c = '*' := fun hc => h (hc ▸ List.mem_cons_self c rest)
    have h2 : '*' ∉ rest := fun hm => h (List.mem_cons_of_mem c hm)
    simp only [csLoop, List.foldl_cons, if_neg h1]
    exact ih h2 _

theorem csLoop_stop (s t : List Char) (h : '*' ∉ s) (cs : Nat) :
    csLoop cs (s ++ '*' :: t) = csLoop cs s := by
  induction s generalizing cs with
  | nil => simp [csLoop]
  | cons c rest ih =>
    have h1 : ¬ c = '*' := fun hc => h (hc ▸ List.mem_cons_self c rest)
    have h2 : '*' ∉ rest := fun hm => h (List.mem_cons_of_mem c hm)
    simp only [List.cons_append, csLoop, if_neg h1]
    exact ih h2 _

theorem checksum_eq_specHexByte (s : List Char) (h : '*' ∉ s) :
    checksum s = specHexByte (specXorFold s) := by
  have hmod : ∀ y : Nat, y &&& 15 = y % 16 := by
    intro y
    have := Nat.and_pow_two_sub_one_eq_mod y 4
    norm_num at this
    exact this
  have hdiv : ∀ y : Nat, y >>> 4 = y / 16 := by
    intro y
    have := Nat.shiftRight_eq_div_pow y 4
    norm_num at this
    exact this
  simp only [checksum, specHexByte, csLoop_eq_foldl s h 0, specXorFold, hmod, hdiv]

/-- C1: for ASCII strings without `'$'` or `'*'`, `checksum` is the XOR of
the character codes rendered as two uppercase hex digits; the empty string
renders as `"00"`; and the XOR scan stops at (excludes) the first `'*'`. -/
theorem C1_checksum_xor (s t : List Char) (_hd : '$' ∉ s) (hs : '*' ∉ s) :
    checksum s = specHexByte (specXorFold s) ∧
    checksum [] = ['0', '0'] ∧
    checksum (s ++ '*' :: t) = checksum s := by
  refine ⟨checksum_eq_specHexByte s hs, by decide, ?_⟩
  simp only [checksum]
  rw [csLoop_stop s t hs]

theorem C1_checksum_xor_witness :
    ('$' ∉ ( "GPRMB,A".toList) ∧ '*' ∉ ( "GPRMB,A".toList)) ∧
    (checksum ( "GPRMB,A".toList) = specHexByte (specXorFold ( "GPRMB,A".toList)) ∧
     checksum [] = ['0', '0'] ∧
     checksum ( "GPRMB,A".toList ++ '*' :: ( "12".toList)) = checksum ( "GPRMB,A".toList)) :=
  ⟨⟨by decide, by decide⟩, C1_checksum_xor _ ( "12".toList) (by decide) (by decide)⟩

/-! ## Lemmas about sentence assembly -/

theorem upToStar_cons_ne (c : Char) (cs : List Char) (hc : ¬ c = '*') :
    upToStar (c :: cs) = c :: upToStar cs := by
  unfold upToStar
  simp only [jsIndexOfStar, if_neg hc]
  cases h : jsIndexOfStar cs with
  | none => simp
  | some i => simp [List.take_succ_cons]

theorem upToStar_eq_takeWhile (l : List Char) :
    upToStar l = l.takeWhile (fun c => c ≠ '*') := by
  induction l with
  | nil => rfl
  | cons c cs ih =>
    by_cases hc : c = '*'
    · subst hc
      simp [upToStar, jsIndexOfStar, List.takeWhile_cons]
    · rw [upToStar_cons_ne c cs hc, ih, List.takeWhile_cons]
      simp [hc]

theorem prefixed_eq_dollar_cons (body : List Char) :
    ∃ r, (if body.head? = some '$' then body else '$' :: body) = '$' :: r := by
  cases body with
  | nil => exact ⟨[], by simp⟩
  | cons c cs =>
    by_cases h : c = '$'
    · subst h
      exact ⟨cs, by simp⟩
    · exact ⟨c :: cs, by simp [h]⟩

theorem toSentence_decompose (parts : List (List Char)) :
    ∃ mid, toSentence parts = '$' :: (mid ++ '*' :: checksum mid) ∧ '*' ∉ mid := by
  obtain ⟨r, hr⟩ := prefixed_eq_dollar_cons (jsStrJoin parts)
  refine ⟨r.takeWhile (fun c => c ≠ '*'), ?_, ?_⟩
  · simp only [toSentence, upToStar_eq_takeWhile, hr]
    rw [List.takeWhile_cons]
    simp
  · intro hmem
    have := List.mem_takeWhile_imp hmem
    simp at this

/-- C2: `toSentence` output has the shape `'$' ++ body ++ '*' ++ HH`: it
equals the spec-side assembly (comma-join, conditional `'$'` prepend, star
strip), and decomposes as `'$' :: mid ++ '*' :: checksum mid` with `mid`
star-free, so the trailing two hex digits are the checksum of exactly the
characters between `'$'` (exclusive) and `'*'` (exclusive) of that string. -/
theorem C2_toSentence_shape (parts : List (List Char)) :
    toSentence parts = specAssemble parts ∧
    ∃ mid, toSentence parts = '$' :: (mid ++ '*' :: checksum mid) ∧ '*' ∉ mid := by
  constructor
  · simp only [toSentence, specAssemble, upToStar_eq_takeWhile]
  · exact toSentence_decompose parts

/-! ## Lemmas about the angle-normalization loops -/

theorem whileAdd360_nonneg (q : ℚ) : 0 ≤ whileAdd360 q := by
  induction q using whileAdd360.induct with
  | case1 q h ih =>
    rw [whileAdd360, dif_pos h]
    exact ih
  | case2 q h =>
    rw [whileAdd360, dif_neg h]
    linarith

theorem whileSub360_lt (q : ℚ) : whileSub360 q < 360 := by
  induction q using whileSub360.induct with
  | case1 q h ih =>
    rw [whileSub360, dif_pos h]
    exact ih
  | case2 q h =>
    rw [whileSub360, dif_neg h]
    linarith

theorem whileSub360_nonneg (q : ℚ) (h0 : 0 ≤ q) : 0 ≤ whileSub360 q := by
  induction q using whileSub360.induct with
  | case1 q h ih =>
    rw [whileSub360, dif_pos h]
    exact ih (by linarith)
  | case2 q h =>
    rw [whileSub360, dif_neg h]
    exact h0

/-- Over the exact-rational model only, the 360-reduction terminates into
the half-open range `[0, 360)`, and the spec's concrete examples hold:
`-π/2 ↦ 270` and `5π ↦ 180` (with `π` the double `Math.PI`).  The source
program does not share this totality — its loops run on binary64 doubles
and diverge once `|deg| ≥ 2^62`; see `C6_float_loop_diverges`. -/
theorem radToDeg360_range_exact (rad : ℚ) :
    (0 ≤ radToDeg360 rad ∧ radToDeg360 rad < 360) ∧
    radToDeg360 (-PI / 2) = 270 ∧ radToDeg360 (5 * PI) = 180 := by
  refine ⟨⟨whileSub360_nonneg _ (whileAdd360_nonneg _), whileSub360_lt _⟩, ?_, ?_⟩
  · have hx : -PI / 2 * 180 / PI = -90 := by
      rw [PI]
      norm_num
    rw [radToDeg360, hx, whileAdd360, dif_pos (by norm_num)]
    have h2 : (-90 : ℚ) + 360 = 270 := by norm_num
    rw [h2, whileAdd360, dif_neg (by norm_num), whileSub360, dif_neg (by norm_num)]
  · have hx : 5 * PI * 180 / PI = 900 := by
      rw [PI]
      norm_num
    rw [radToDeg360, hx, whileAdd360, dif_neg (by norm_num),
      whileSub360, dif_pos (by norm_num)]
    have h2 : (900 : ℚ) - 360 = 540 := by norm_num
    rw [h2, whileSub360, dif_pos (by norm_num)]
    have h3 : (540 : ℚ) - 360 = 180 := by norm_num
    rw [h3, whileSub360, dif_neg (by norm_num)]

/-! ## Evaluation helper for rational floors -/

theorem qfloorEq (q : ℚ) (z : ℤ) (h1 : (z : ℚ) ≤ q) (h2 : q < z + 1) : ⌊q⌋ = z := by
  rw [Int.floor_eq_iff]
  exact ⟨h1, by exact_mod_cast h2⟩

/-- C5: the coordinate formatters fail with the invalid-input error exactly
on non-finite or out-of-domain input (`[-90, 90]` for latitude, `[-180, 180)`
for longitude) — in particular at latitude 91 — and return a rendered string
on every in-domain finite input. -/
theorem C5_coordinate_domain :
    (∀ q : ℚ, q < -90 ∨ 90 < q → toNmeaDegreesLatitude (.num q) = .error latErrMsg) ∧
    toNmeaDegreesLatitude .nan = .error latErrMsg ∧
    (∀ q : ℚ, q < -180 ∨ 180 ≤ q → toNmeaDegreesLongitude (.num q) = .error lonErrMsg) ∧
    toNmeaDegreesLongitude .nan = .error lonErrMsg ∧
    toNmeaDegreesLatitude (.num 91) = .error latErrMsg ∧
    (∀ q : ℚ, -90 ≤ q → q ≤ 90 → ∃ s, toNmeaDegreesLatitude (.num q) = .ok s) ∧
    (∀ q : ℚ, -180 ≤ q → q < 180 → ∃ s, toNmeaDegreesLongitude (.num q) = .ok s) := by
  refine ⟨?_, rfl, ?_, rfl, ?_, ?_, ?_⟩
  · intro q h
    simp only [toNmeaDegreesLatitude, if_pos h]
  · intro q h
    simp only [toNmeaDegreesLongitude, if_pos h]
  · have h : (91 : ℚ) < -90 ∨ (90 : ℚ) < 91 := Or.inr (by norm_num)
    simp only [toNmeaDegreesLatitude, if_pos h]
  · intro q hlo hhi
    have h : ¬ (q < -90 ∨ 90 < q) := by
      push_neg
      exact ⟨hlo, hhi⟩
    simp only [toNmeaDegreesLatitude, if_neg h]
    exact ⟨_, rfl⟩
  · intro q hlo hhi
    have h : ¬ (q < -180 ∨ 180 ≤ q) := by
      push_neg
      exact ⟨hlo, hhi⟩
    simp only [toNmeaDegreesLongitude, if_neg h]
    exact ⟨_, rfl⟩

theorem C5_coordinate_domain_witness :
    toNmeaDegreesLatitude (.num 91) = .error latErrMsg ∧
    (∃ s, toNmeaDegreesLatitude (.num (455/10)) = .ok s) ∧
    (∃ s, toNmeaDegreesLongitude (.num (-12225/100)) = .ok s) :=
  ⟨C5_coordinate_domain.1 91 (Or.inr (by norm_num)),
   C5_coordinate_domain.2.2.2.2.2.1 (455/10) (by norm_num) (by norm_num),
   C5_coordinate_domain.2.2.2.2.2.2 (-12225/100) (by norm_num) (by norm_num)⟩

/-- C4 (evaluation at the spec's own example inputs): because `padd` pads
and truncates to the *digit count* of its width argument (always one digit
here) instead of the width itself, the formatters return `"50,N"`, `"50,S"`
and `"20,W"` where their documentation promises `"4530.0000,N"`,
`"4530.0000,S"` and `"12215.0000,W"`. -/
theorem C4_formatter_truncates :
    toNmeaDegreesLatitude (.num (455/10)) = .ok ( "50,N").toList ∧
    toNmeaDegreesLatitude (.num (-455/10)) = .ok ( "50,S").toList ∧
    toNmeaDegreesLongitude (.num (-12225/100)) = .ok ( "20,W").toList ∧
    toNmeaDegreesLatitude (.num (455/10)) ≠ .ok ( "4530.0000,N").toList := by
  have hlat : toNmeaDegreesLatitude (.num (455/10)) = .ok ( "50,N").toList := by
    have h1 : ¬ ((455 : ℚ)/10 < -90 ∨ 90 < (455 : ℚ)/10) := by norm_num
    have h2 : ¬ ((455 : ℚ)/10 < 0) := by norm_num
    have hD : ⌊(455 : ℚ)/10⌋ = 45 := qfloorEq _ 45 (by norm_num) (by norm_num)
    simp only [toNmeaDegreesLatitude, decimalDegreesToDegreesAndDecimalMinutes,
      if_neg h1, if_neg h2, hD, toFixedQ]
    have hF0 : ⌊((45 : ℤ) : ℚ) * (10 : ℚ) ^ (0 : ℕ) + 1/2⌋ = 45 :=
      qfloorEq _ 45 (by push_cast; norm_num) (by push_cast; norm_num)
    have hF4 : ⌊((455 : ℚ)/10 - ((45 : ℤ) : ℚ)) * 60 * (10 : ℚ) ^ (4 : ℕ) + 1/2⌋ = 300000 :=
      qfloorEq _ 300000 (by push_cast; norm_num) (by push_cast; norm_num)
    rw [hF0, hF4]
    rfl
  refine ⟨hlat, ?_, ?_, ?_⟩
  · have h1 : ¬ ((-455 : ℚ)/10 < -90 ∨ 90 < (-455 : ℚ)/10) := by norm_num
    have h2 : (-455 : ℚ)/10 < 0 := by norm_num
    have hD : ⌊-((-455 : ℚ)/10)⌋ = 45 := qfloorEq _ 45 (by norm_num) (by norm_num)
    simp only [toNmeaDegreesLatitude, decimalDegreesToDegreesAndDecimalMinutes,
      if_neg h1, if_pos h2, hD, toFixedQ]
    have hF0 : ⌊((45 : ℤ) : ℚ) * (10 : ℚ) ^ (0 : ℕ) + 1/2⌋ = 45 :=
      qfloorEq _ 45 (by push_cast; norm_num) (by push_cast; norm_num)
    have hF4 : ⌊(-((-455 : ℚ)/10) - ((45 : ℤ) : ℚ)) * 60 * (10 : ℚ) ^ (4 : ℕ) + 1/2⌋ = 300000 :=
      qfloorEq _ 300000 (by push_cast; norm_num) (by push_cast; norm_num)
    rw [hF0, hF4]
    rfl
  · have h1 : ¬ ((-12225 : ℚ)/100 < -180 ∨ 180 ≤ (-12225 : ℚ)/100) := by norm_num
    have h2 : (-12225 : ℚ)/100 < 0 := by norm_num
    have hD : ⌊-((-12225 : ℚ)/100)⌋ = 122 := qfloorEq _ 122 (by norm_num) (by norm_num)
    simp only [toNmeaDegreesLongitude, decimalDegreesToDegreesAndDecimalMinutes,
      if_neg h1, if_pos h2, hD, toFixedQ]
    have hF0 : ⌊((122 : ℤ) : ℚ) * (10 : ℚ) ^ (0 : ℕ) + 1/2⌋ = 122 :=
      qfloorEq _ 122 (by push_cast; norm_num) (by push_cast; norm_num)
    have hF4 : ⌊(-((-12225 : ℚ)/100) - ((122 : ℤ) : ℚ)) * 60 * (10 : ℚ) ^ (4 : ℕ) + 1/2⌋ = 150000 :=
      qfloorEq _ 150000 (by push_cast; norm_num) (by push_cast; norm_num)
    rw [hF0, hF4]
    rfl
  · rw [hlat]
    intro h
    have := Except.ok.inj h
    simp at this

/-! ## Character and string toolkit lemmas -/

theorem takeWhile_no_star (l : List Char) (h : '*' ∉ l) :
    l.takeWhile (fun c => c ≠ '*') = l := by
  induction l with
  | nil => rfl
  | cons c cs ih =>
    have h1 : ¬ c = '*' := fun hc => h (hc ▸ List.mem_cons_self c cs)
    have h2 : '*' ∉ cs := fun hm => h (List.mem_cons_of_mem c hm)
    rw [List.takeWhile_cons, if_pos (by simp [h1]), ih h2]

theorem takeWhile_append_star (l r : List Char) (h : '*' ∉ l) :
    (l ++ '*' :: r).takeWhile (fun c => c ≠ '*') = l := by
  induction l with
  | nil => simp [List.takeWhile_cons]
  | cons c cs ih =>
    have h1 : ¬ c = '*' := fun hc => h (hc ▸ List.mem_cons_self c cs)
    have h2 : '*' ∉ cs := fun hm => h (List.mem_cons_of_mem c hm)
    rw [List.cons_append, List.takeWhile_cons, if_pos (by simp [h1]), ih h2]

theorem m_hex_getD_mem (i : Nat) : m_hex.getD i ' ' ∈ ' ' :: m_hex := by
  by_cases h : i < m_hex.length
  · rw [List.getD_eq_getElem m_hex ' ' h]
    exact List.mem_cons_of_mem _ (List.getElem_mem h)
  · rw [List.getD_eq_default m_hex ' ' (by omega)]
    exact List.mem_cons_self _ _

theorem checksum_no_star (s : List Char) : '*' ∉ checksum s := by
  intro hmem
  simp only [checksum, List.mem_cons, List.not_mem_nil, or_false] at hmem
  rcases hmem with h | h
  · have := m_hex_getD_mem ((csLoop 0 s >>> 4) &&& 15)
    rw [← h] at this
    revert this
    decide
  · have := m_hex_getD_mem (csLoop 0 s &&& 15)
    rw [← h] at this
    revert this
    decide

theorem jsStrJoin_cons_cons (x y : List Char) (xs : List (List Char)) :
    jsStrJoin (x :: y :: xs) = x ++ ',' :: jsStrJoin (y :: xs) := rfl

theorem jsStrJoin_count_comma (parts : List (List Char)) (h : ∀ f ∈ parts, ',' ∉ f)
    (hne : parts ≠ []) :
    (jsStrJoin parts).count ',' = parts.length - 1 := by
  induction parts with
  | nil => exact absurd rfl hne
  | cons x xs ih =>
    cases xs with
    | nil =>
      simp only [jsStrJoin, List.length_singleton]
      rw [List.count_eq_zero.mpr (h x (List.mem_cons_self x []))]
    | cons y ys =>
      rw [jsStrJoin_cons_cons, List.count_append, List.count_cons]
      rw [List.count_eq_zero.mpr (h x (List.mem_cons_self x _))]
      rw [ih (fun f hf => h f (List.mem_cons_of_mem x hf)) (by simp)]
      simp [List.length_cons]

theorem jsStrJoin_no_star (parts : List (List Char)) (h : ∀ f ∈ parts, '*' ∉ f) :
    '*' ∉ jsStrJoin parts := by
  induction parts with
  | nil => simp [jsStrJoin]
  | cons x xs ih =>
    cases xs with
    | nil =>
      simpa [jsStrJoin] using h x (List.mem_cons_self x [])
    | cons y ys =>
      rw [jsStrJoin_cons_cons]
      intro hmem
      rcases List.mem_append.mp hmem with hx | hrest
      · exact h x (List.mem_cons_self x _) hx
      · rcases List.mem_cons.mp hrest with hc | hrest2
        · exact absurd hc (by decide)
        · exact ih (fun f hf => h f (List.mem_cons_of_mem x hf)) hrest2

theorem toSentence_shape_dollar (parts : List (List Char)) (mid : List Char)
    (hj : jsStrJoin parts = '$' :: mid) (h : '*' ∉ jsStrJoin parts) :
    toSentence parts = '$' :: (mid ++ '*' :: checksum mid) := by
  have hne : '*' ∉ '$' :: mid := hj ▸ h
  have hpre : (if (jsStrJoin parts).head? = some '$' then jsStrJoin parts
      else '$' :: jsStrJoin parts) = '$' :: mid := by
    rw [hj]
    simp
  simp only [toSentence, hpre, upToStar_eq_takeWhile, takeWhile_no_star _ hne,
    List.drop_one, List.tail_cons, List.cons_append]

theorem toSentence_shape_nodollar (parts : List (List Char))
    (hj : (jsStrJoin parts).head? ≠ some '$') (h : '*' ∉ jsStrJoin parts) :
    toSentence parts = '$' :: (jsStrJoin parts ++ '*' :: checksum (jsStrJoin parts)) := by
  have hne : '*' ∉ '$' :: jsStrJoin parts := by
    intro hc
    rcases List.mem_cons.mp hc with h1 | h1
    · exact absurd h1 (by decide)
    · exact h h1
  simp only [toSentence, if_neg hj, upToStar_eq_takeWhile,
    takeWhile_no_star _ hne, List.drop_one, List.tail_cons]
  rw [List.cons_append]

/-- C9: sentence assembly is deterministic (a pure function of the field
list) and idempotent: re-assembling the single-field list containing a
previous `toSentence` output returns that output unchanged, the embedded
`'*'`-checksum suffix being stripped and recomputed. -/
theorem C9_toSentence_idempotent (parts : List (List Char)) :
    toSentence parts = toSentence parts ∧
    toSentence [toSentence parts] = toSentence parts := by
  refine ⟨rfl, ?_⟩
  obtain ⟨mid, hdec, hstar⟩ := toSentence_decompose parts
  rw [hdec]
  have hjoin : jsStrJoin ['$' :: (mid ++ '*' :: checksum mid)] =
      '$' :: (mid ++ '*' :: checksum mid) := by
    simp only [jsStrJoin]
  have htake : ('$' :: (mid ++ '*' :: checksum mid)).takeWhile (fun c => c ≠ '*') =
      '$' :: mid := by
    rw [List.takeWhile_cons, if_pos (by simp)]
    rw [takeWhile_append_star mid _ hstar]
  have hif : (if ('$' :: (mid ++ '*' :: checksum mid)).head? = some '$'
      then '$' :: (mid ++ '*' :: checksum mid)
      else '$' :: ('$' :: (mid ++ '*' :: checksum mid))) =
      '$' :: (mid ++ '*' :: checksum mid) := by
    simp
  simp only [toSentence, hjoin, hif, upToStar_eq_takeWhile, htake, List.drop_one,
    List.tail_cons, List.cons_append]

/-! ## Field character-class lemmas -/

theorem hexlike_fieldOk : ∀ c ∈ ' ' :: m_hex, c ≠ ',' ∧ c ≠ '*' ∧ c ≠ '$' := by
  decide

theorem natReprAux_chars (fuel : Nat) : ∀ n : Nat, ∀ c ∈ natReprAux fuel n, c ∈ ' ' :: m_hex := by
  induction fuel with
  | zero =>
    intro n c hc
    simp [natReprAux] at hc
  | succ f ih =>
    intro n c hc
    simp only [natReprAux] at hc
    by_cases h : n < 10
    · rw [if_pos h] at hc
      simp only [List.mem_singleton] at hc
      exact hc ▸ m_hex_getD_mem n
    · rw [if_neg h] at hc
      rcases List.mem_append.mp hc with h1 | h1
      · exact ih (n / 10) c h1
      · simp only [List.mem_singleton] at h1
        exact h1 ▸ m_hex_getD_mem (n % 10)

theorem natRepr_chars (n : Nat) : ∀ c ∈ natRepr n, c ∈ ' ' :: m_hex :=
  natReprAux_chars (n + 1) n

theorem toFixedInt_fieldOk (d : Nat) (n : Int) : fieldOk (toFixedInt d n) := by
  intro c hc
  simp only [toFixedInt] at hc
  have hsgn : ∀ x ∈ (if n < 0 then ['-'] else ([] : List Char)),
      x ≠ ',' ∧ x ≠ '*' ∧ x ≠ '$' := by
    intro x hx
    by_cases h : n < 0
    · rw [if_pos h] at hx
      simp only [List.mem_singleton] at hx
      subst hx
      decide
    · rw [if_neg h] at hx
      simp at hx
  have hds2 : ∀ x ∈ List.replicate (d + 1 - (natRepr n.natAbs).length) '0' ++ natRepr n.natAbs,
      x ∈ ' ' :: m_hex := by
    intro x hx
    rcases List.mem_append.mp hx with h1 | h1
    · rw [List.eq_of_mem_replicate h1]
      decide
    · exact natRepr_chars n.natAbs x h1
  by_cases hd : d = 0
  · rw [if_pos hd] at hc
    rcases List.mem_append.mp hc with h1 | h1
    · exact hsgn c h1
    · exact hexlike_fieldOk c (natRepr_chars n.natAbs c h1)
  · rw [if_neg hd] at hc
    rcases List.mem_append.mp hc with h1 | h1
    · rcases List.mem_append.mp h1 with h2 | h2
      · exact hsgn c h2
      · exact hexlike_fieldOk c (hds2 c (List.take_subset _ _ h2))
    rcases List.mem_cons.mp h1 with h3 | h3
    · subst h3
      decide
    · exact hexlike_fieldOk c (hds2 c (List.drop_subset _ _ h3))

theorem toFixedQ_fieldOk (d : Nat) (q : ℚ) : fieldOk (toFixedQ d q) :=
  toFixedInt_fieldOk d _

theorem toFixedJ_fieldOk (d : Nat) (v : JSNum) : fieldOk (toFixedJ d v) := by
  cases v with
  | num q => exact toFixedQ_fieldOk d q
  | nan =>
    intro c hc
    have hall : ∀ x ∈ ([ 'N', 'a', 'N'] : List Char), x ≠ ',' ∧ x ≠ '*' ∧ x ≠ '$' := by
      decide
    exact hall c hc

theorem padd_fieldOk (n : List Char) (p : Nat) (h : fieldOk n) : fieldOk (padd n p) := by
  intro c hc
  simp only [padd] at hc
  have := List.drop_subset _ _ hc
  rcases List.mem_append.mp this with h1 | h1
  · rw [List.eq_of_mem_replicate h1]
    decide
  · exact h c h1

theorem upperChar_fieldOk (t : Nat) (h1 : 97 ≤ t) (h2 : t ≤ 122) :
    Char.ofNat (t - 32) ≠ ',' ∧ Char.ofNat (t - 32) ≠ '*' ∧ Char.ofNat (t - 32) ≠ '$' := by
  interval_cases t <;> decide

theorem jsToUpper_fieldOk (s : List Char) (h : fieldOk s) : fieldOk (jsToUpper s) := by
  intro c hc
  simp only [jsToUpper, List.mem_map] at hc
  obtain ⟨c0, hc0, rfl⟩ := hc
  by_cases hl : 97 ≤ c0.toNat ∧ c0.toNat ≤ 122
  · rw [if_pos hl]
    exact upperChar_fieldOk c0.toNat hl.1 hl.2
  · rw [if_neg hl]
    exact h c0 hc0

theorem jsOrStr_fieldOk (a : Option (List Char)) (b : List Char)
    (ha : optOk a) (hb : fieldOk b) : fieldOk (jsOrStr a b) := by
  cases a with
  | none => exact hb
  | some s =>
    simp only [jsOrStr]
    by_cases h : s = []
    · rw [if_pos h]
      exact hb
    · rw [if_neg h]
      exact ha

theorem talker_cases (env : Option (List Char)) :
    talker env = ( "GP").toList ∨ talker env = ( "II").toList := by
  simp only [talker]
  by_cases h : jsToUpper (jsOrStr env ( "GP").toList) = ( "II").toList
  · rw [if_pos h]
    right
    rfl
  · rw [if_neg h]
    left
    rfl

theorem talker_fieldOk (env : Option (List Char)) : fieldOk (talker env) := by
  have hGP : ∀ x ∈ ( "GP").toList, x ≠ ',' ∧ x ≠ '*' ∧ x ≠ '$' := by decide
  have hII : ∀ x ∈ ( "II").toList, x ≠ ',' ∧ x ≠ '*' ∧ x ≠ '$' := by decide
  rcases talker_cases env with h | h
  · rw [h]
    exact hGP
  · rw [h]
    exact hII

theorem steerChar_cases (v : JSNum) : steerChar v = 'R' ∨ steerChar v = 'L' := by
  cases v with
  | num q =>
    simp only [steerChar]
    by_cases h : 0 ≤ q
    · rw [if_pos h]
      left
      rfl
    · rw [if_neg h]
      right
      rfl
  | nan =>
    right
    rfl

theorem fieldOk_no_star (f : List Char) (h : fieldOk f) : '*' ∉ f :=
  fun hm => (h '*' hm).2.1 rfl

theorem fieldOk_no_comma (f : List Char) (h : fieldOk f) : ',' ∉ f :=
  fun hm => (h ',' hm).1 rfl

/-! ## Shape of the formatted coordinates and of `split(',')` -/

theorem toNmeaDegreesLatitude_shape (v : JSNum) (s : List Char)
    (h : toNmeaDegreesLatitude v = .ok s) :
    ∃ A hemi, s = A ++ ',' :: [hemi] ∧ fieldOk A ∧ (hemi = 'N' ∨ hemi = 'S') := by
  cases v with
  | nan => exact absurd h (by simp [toNmeaDegreesLatitude])
  | num q =>
    simp only [toNmeaDegreesLatitude] at h
    by_cases hg : q < -90 ∨ 90 < q
    · rw [if_pos hg] at h
      exact absurd h (by simp)
    · rw [if_neg hg] at h
      obtain rfl := Except.ok.inj h
      refine ⟨_, _, rfl, ?_, ?_⟩
      · intro c hc
        rcases List.mem_append.mp hc with h1 | h1
        · exact padd_fieldOk _ _ (toFixedQ_fieldOk _ _) c h1
        · exact padd_fieldOk _ _ (toFixedQ_fieldOk _ _) c h1
      · by_cases hdir : (decimalDegreesToDegreesAndDecimalMinutes q).2.2 > 0
        · rw [if_pos hdir]
          exact Or.inl rfl
        · rw [if_neg hdir]
          exact Or.inr rfl

theorem toNmeaDegreesLongitude_shape (v : JSNum) (s : List Char)
    (h : toNmeaDegreesLongitude v = .ok s) :
    ∃ A hemi, s = A ++ ',' :: [hemi] ∧ fieldOk A ∧ (hemi = 'E' ∨ hemi = 'W') := by
  cases v with
  | nan => exact absurd h (by simp [toNmeaDegreesLongitude])
  | num q =>
    simp only [toNmeaDegreesLongitude] at h
    by_cases hg : q < -180 ∨ 180 ≤ q
    · rw [if_pos hg] at h
      exact absurd h (by simp)
    · rw [if_neg hg] at h
      obtain rfl := Except.ok.inj h
      refine ⟨_, _, rfl, ?_, ?_⟩
      · intro c hc
        rcases List.mem_append.mp hc with h1 | h1
        · exact padd_fieldOk _ _ (toFixedQ_fieldOk _ _) c h1
        · exact padd_fieldOk _ _ (toFixedQ_fieldOk _ _) c h1
      · by_cases hdir : (decimalDegreesToDegreesAndDecimalMinutes q).2.2 > 0
        · rw [if_pos hdir]
          exact Or.inl rfl
        · rw [if_neg hdir]
          exact Or.inr rfl

theorem jsSplitComma_no_comma (B : List Char) (h : ',' ∉ B) : jsSplitComma B = [B] := by
  induction B with
  | nil => rfl
  | cons c cs ih =>
    have h1 : ¬ c = ',' := fun hc => h (hc ▸ List.mem_cons_self c cs)
    have h2 : ',' ∉ cs := fun hm => h (List.mem_cons_of_mem c hm)
    simp only [jsSplitComma, if_neg h1, ih h2]

theorem jsSplitComma_append (A B : List Char) (h : ',' ∉ A) :
    jsSplitComma (A ++ ',' :: B) = A :: jsSplitComma B := by
  induction A with
  | nil => simp [jsSplitComma]
  | cons c cs ih =>
    have h1 : ¬ c = ',' := fun hc => h (hc ▸ List.mem_cons_self c cs)
    have h2 : ',' ∉ cs := fun hm => h (List.mem_cons_of_mem c hm)
    rw [List.cons_append]
    simp only [jsSplitComma, if_neg h1, ih h2]

theorem splitCommaGet_zero (A B : List Char) (h : ',' ∉ A) :
    splitCommaGet (A ++ ',' :: B) 0 = A := by
  simp [splitCommaGet, jsSplitComma_append A B h]

theorem splitCommaGet_one (A B : List Char) (hA : ',' ∉ A) (hB : ',' ∉ B) :
    splitCommaGet (A ++ ',' :: B) 1 = B := by
  simp [splitCommaGet, jsSplitComma_append A B hA, jsSplitComma_no_comma B hB]

/-! ## Concrete evaluations of the builders and formatters -/
theorem radToDeg360_zero : radToDeg360 0 = 0 := by
  have h0 : (0 : ℚ) * 180 / PI = 0 := by
    rw [PI]
    norm_num
  rw [radToDeg360, h0, whileAdd360, dif_neg (by norm_num), whileSub360, dif_neg (by norm_num)]

theorem lat_zero_eval : toNmeaDegreesLatitude (.num 0) = .ok ( "00,N").toList := by
  have h1 : ¬ ((0 : ℚ) < -90 ∨ 90 < (0 : ℚ)) := by norm_num
  have h2 : ¬ ((0 : ℚ) < 0) := by norm_num
  have hD : ⌊(0 : ℚ)⌋ = 0 := qfloorEq _ 0 (by norm_num) (by norm_num)
  simp only [toNmeaDegreesLatitude, decimalDegreesToDegreesAndDecimalMinutes,
    if_neg h1, if_neg h2, hD, toFixedQ]
  have hF0 : ⌊((0 : ℤ) : ℚ) * (10 : ℚ) ^ (0 : ℕ) + 1/2⌋ = 0 :=
    qfloorEq _ 0 (by push_cast; norm_num) (by push_cast; norm_num)
  have hF4 : ⌊((0 : ℚ) - ((0 : ℤ) : ℚ)) * 60 * (10 : ℚ) ^ (4 : ℕ) + 1/2⌋ = 0 :=
    qfloorEq _ 0 (by push_cast; norm_num) (by push_cast; norm_num)
  rw [hF0, hF4]
  rfl

theorem lon_zero_eval : toNmeaDegreesLongitude (.num 0) = .ok ( "00,E").toList := by
  have h1 : ¬ ((0 : ℚ) < -180 ∨ 180 ≤ (0 : ℚ)) := by norm_num
  have h2 : ¬ ((0 : ℚ) < 0) := by norm_num
  have hD : ⌊(0 : ℚ)⌋ = 0 := qfloorEq _ 0 (by norm_num) (by norm_num)
  simp only [toNmeaDegreesLongitude, decimalDegreesToDegreesAndDecimalMinutes,
    if_neg h1, if_neg h2, hD, toFixedQ]
  have hF0 : ⌊((0 : ℤ) : ℚ) * (10 : ℚ) ^ (0 : ℕ) + 1/2⌋ = 0 :=
    qfloorEq _ 0 (by push_cast; norm_num) (by push_cast; norm_num)
  have hF4 : ⌊((0 : ℚ) - ((0 : ℤ) : ℚ)) * 60 * (10 : ℚ) ^ (4 : ℕ) + 1/2⌋ = 0 :=
    qfloorEq _ 0 (by push_cast; norm_num) (by push_cast; norm_num)
  rw [hF0, hF4]
  rfl

theorem rmb_eval_ok0 :
    rmb none (some (.num 0)) none none none none (some (.num 0, .num 0)) none
      (some (.num 0)) none =
      some (.arr [( "$GPRMB,A,0.000,R,,WAYPOINT,00,N,00,E,,0.0,,A*3C").toList]) := by
  have h3 : toFixedQ 3 (|(0 : ℚ)|/1852) = ( "0.000").toList := by
    have hf : ⌊|(0 : ℚ)|/1852 * (10 : ℚ) ^ (3 : ℕ) + 1/2⌋ = 0 :=
      qfloorEq _ 0 (by norm_num) (by norm_num)
    rw [toFixedQ, hf]
    rfl
  have h1 : toFixedQ 1 (radToDeg360 0) = ( "0.0").toList := by
    rw [radToDeg360_zero]
    have hf : ⌊(0 : ℚ) * (10 : ℚ) ^ (1 : ℕ) + 1/2⌋ = 0 :=
      qfloorEq _ 0 (by norm_num) (by norm_num)
    rw [toFixedQ, hf]
    rfl
  have hsteer : steerChar (.num 0) = 'R' := by
    simp [steerChar]
  simp only [rmb, rmbBody, lat_zero_eval, lon_zero_eval, jsAbs, jsDivC, radToDeg360J,
    toFixedJ, h3, h1, hsteer]
  rfl

theorem rmb_eval_nan :
    rmb none (some .nan) none none none none (some (.num 0, .num 0)) none
      (some (.num 0)) none =
      some (.arr [( "$GPRMB,A,NaN,L,,WAYPOINT,00,N,00,E,,0.0,,A*6D").toList]) := by
  have h1 : toFixedQ 1 (radToDeg360 0) = ( "0.0").toList := by
    rw [radToDeg360_zero]
    have hf : ⌊(0 : ℚ) * (10 : ℚ) ^ (1 : ℕ) + 1/2⌋ = 0 :=
      qfloorEq _ 0 (by norm_num) (by norm_num)
    rw [toFixedQ, hf]
    rfl
  simp only [rmb, rmbBody, lat_zero_eval, lon_zero_eval, jsAbs, jsDivC, radToDeg360J,
    toFixedJ, h1, steerChar]
  rfl

theorem lat_91_error : toNmeaDegreesLatitude (.num 91) = .error latErrMsg := by
  simp only [toNmeaDegreesLatitude, if_pos (Or.inr (by norm_num : (90 : ℚ) < 91))]

theorem apb_eval_c3 :
    apbF none (some (.num 100)) none (some (.num (15708/10000))) none none =
      some (.str (( "$GPAPB,A,A,0.054,R,N,V,V,90,T,00,90,T,,M*3A").toList)) := by
  have hb : ¬ ((15708 : ℚ)/10000 * 180 / PI < 0) := by
    rw [PI]
    norm_num
  have hb2 : ¬ (360 ≤ (15708 : ℚ)/10000 * 180 / PI) := by
    rw [PI]
    norm_num
  have hdeg : radToDeg360 ((15708 : ℚ)/10000) = (15708 : ℚ)/10000 * 180 / PI := by
    rw [radToDeg360, whileAdd360, dif_neg hb, whileSub360, dif_neg hb2]
  have hF3 : toFixedQ 3 |mToNm 100| = ( "0.054").toList := by
    have habs : |(100 : ℚ)/1852| = 100/1852 := abs_of_nonneg (by norm_num)
    have hf : ⌊(100 : ℚ)/1852 * (10 : ℚ) ^ (3 : ℕ) + 1/2⌋ = 54 :=
      qfloorEq _ 54 (by norm_num) (by norm_num)
    rw [mToNm, toFixedQ, habs, hf]
    rfl
  have hF0 : toFixedQ 0 (radToDeg360 ((15708 : ℚ)/10000)) = ( "90").toList := by
    have hf : ⌊(15708 : ℚ)/10000 * 180 / PI * (10 : ℚ) ^ (0 : ℕ) + 1/2⌋ = 90 :=
      qfloorEq _ 90 (by rw [PI]; norm_num) (by rw [PI]; norm_num)
    rw [hdeg, toFixedQ, hf]
    rfl
  have hsteer : (if (0 : ℚ) ≤ 100 then 'R' else 'L') = 'R' := if_pos (by norm_num)
  simp only [apbF, isFiniteO, if_true]
  simp only [radsToPositiveDeg, hF3, hF0, hsteer]
  rfl

/-- C3 (amended): at crossTrackError = 100 m, nextPoint.bearingTrue = 1.5708
rad, no magnetic data and the default talker, the APB builder returns the
sentence string (not an array) `$GPAPB,A,A,0.054,R,N,V,V,90,T,00,90,T,,M*3A`:
fields 6 and 7 are the constant `V,V` flags, bearings are rendered with 0
decimals, field 10 is the constant `00`, there is no waypoint-identifier
field and no trailing mode pair; the trailing two hex digits are the
checksum of the characters between `$` and `*`. -/
theorem C3_apb_concrete :
    apbF none (some (.num 100)) none (some (.num (15708/10000))) none none =
      some (.str (( "$GPAPB,A,A,0.054,R,N,V,V,90,T,00,90,T,,M*3A").toList)) ∧
    ( "$GPAPB,A,A,0.054,R,N,V,V,90,T,00,90,T,,M*3A").toList =
      '$' :: (( "GPAPB,A,A,0.054,R,N,V,V,90,T,00,90,T,,M").toList ++
        '*' :: checksum (( "GPAPB,A,A,0.054,R,N,V,V,90,T,00,90,T,,M").toList)) :=
  ⟨apb_eval_c3, by decide⟩

/-- C3 counterexample: at the claim's input the APB output does not start
with the claimed `$GPAPB,A,A,0.054,R,N,90.0,T` — fields 6 and 7 of the
actual output are `V,V`, not a bearing. -/
theorem C3_apb_claim_counterexample :
    apbF none (some (.num 100)) none (some (.num (15708/10000))) none none =
      some (.str (( "$GPAPB,A,A,0.054,R,N,V,V,90,T,00,90,T,,M*3A").toList)) ∧
    ¬ (( "$GPAPB,A,A,0.054,R,N,90.0,T").toList <+:
        ( "$GPAPB,A,A,0.054,R,N,V,V,90,T,00,90,T,,M*3A").toList) :=
  ⟨apb_eval_c3, by decide⟩

/-- C7 (amended): each builder returns no output and raises no exception
when a mandatory field is absent — for APB also when the cross-track error
or both true-bearing sources are present but non-finite; RMB's early return
is the non-exceptional `Except.ok none`.  (RMB with a present but
non-finite cross-track error or bearing does emit a sentence — see the
counterexample.) -/
theorem C7_missing_mandatory :
    (∀ env xte trk nxt mag var, isFiniteO xte = false →
        apbF env xte trk nxt mag var = none) ∧
    (∀ env xte trk nxt mag var, isFiniteO trk = false → isFiniteO nxt = false →
        apbF env xte trk nxt mag var = none) ∧
    (∀ env oN oI dN dI dp rng brg vmg,
        rmbBody env none oN oI dN dI dp rng brg vmg = Except.ok none ∧
        rmb env none oN oI dN dI dp rng brg vmg = none) ∧
    (∀ env xte oN oI dN dI rng brg vmg,
        rmbBody env xte oN oI dN dI none rng brg vmg = Except.ok none ∧
        rmb env xte oN oI dN dI none rng brg vmg = none) ∧
    (∀ env xte oN oI dN dI dp rng vmg,
        rmbBody env xte oN oI dN dI dp rng none vmg = Except.ok none ∧
        rmb env xte oN oI dN dI dp rng none vmg = none) := by
  refine ⟨?_, ?_, ?_, ?_, ?_⟩
  · intro env xte trk nxt mag var h
    rcases xte with _ | xv
    · simp [apbF]
    · cases xv with
      | num q => simp [isFiniteO] at h
      | nan => simp [apbF]
  · intro env xte trk nxt mag var htrk hnxt
    rcases xte with _ | xv
    · simp [apbF]
    · cases xv with
      | nan => simp [apbF]
      | num q =>
        simp only [apbF, hnxt, Bool.false_eq_true, if_false]
        rcases trk with _ | tv
        · rfl
        · cases tv with
          | num q2 => simp [isFiniteO] at htrk
          | nan => rfl
  · intro env oN oI dN dI dp rng brg vmg
    exact ⟨rfl, rfl⟩
  · intro env xte oN oI dN dI rng brg vmg
    rcases xte with _ | xv
    · exact ⟨rfl, rfl⟩
    · exact ⟨rfl, rfl⟩
  · intro env xte oN oI dN dI dp rng vmg
    rcases xte with _ | xv
    · exact ⟨rfl, rfl⟩
    · rcases dp with _ | p
      · exact ⟨rfl, rfl⟩
      · exact ⟨rfl, rfl⟩

theorem C7_missing_mandatory_witness :
    isFiniteO (none : Option JSNum) = false ∧
    apbF none none none none none none = none ∧
    rmbBody none none none none none none (some (.num 0, .num 0)) none
      (some (.num 0)) none = Except.ok none :=
  ⟨rfl, C7_missing_mandatory.1 none none none none none none rfl,
   (C7_missing_mandatory.2.2.1 none none none none none (some (.num 0, .num 0)) none
     (some (.num 0)) none).1⟩

/-- C7 counterexample: RMB with a present but non-finite (NaN) cross-track
error does not return null — it emits a sentence whose cross-track field is
the three characters `NaN`. -/
theorem C7_nonfinite_counterexample :
    rmb none (some .nan) none none none none (some (.num 0, .num 0)) none
      (some (.num 0)) none =
      some (.arr [( "$GPRMB,A,NaN,L,,WAYPOINT,00,N,00,E,,0.0,,A*6D").toList]) ∧
    rmb none (some .nan) none none none none (some (.num 0, .num 0)) none
      (some (.num 0)) none ≠ none := by
  refine ⟨rmb_eval_nan, ?_⟩
  rw [rmb_eval_nan]
  exact fun h => Option.noConfusion h

/-- C10: the RMB `try`/`catch` never propagates an error to the caller:
whenever the body throws, `rmb` returns null and emits no partial sentence;
in particular an out-of-domain or non-finite destination latitude or
longitude (the formatter's out-of-range error) yields null. -/
theorem C10_rmb_catches_errors :
    (∀ env xte oN oI dN dI dp rng brg vmg e,
        rmbBody env xte oN oI dN dI dp rng brg vmg = .error e →
        rmb env xte oN oI dN dI dp rng brg vmg = none) ∧
    (∀ env xte oN oI dN dI la lo rng brg vmg,
        toNmeaDegreesLatitude la = .error latErrMsg ∨
        toNmeaDegreesLongitude lo = .error lonErrMsg →
        rmb env xte oN oI dN dI (some (la, lo)) rng brg vmg = none) := by
  constructor
  · intro env xte oN oI dN dI dp rng brg vmg e h
    simp [rmb, h]
  · intro env xte oN oI dN dI la lo rng brg vmg h
    rcases xte with _ | xv
    · rfl
    rcases brg with _ | bv
    · rfl
    rcases h with hlat | hlon
    · simp [rmb, rmbBody, hlat, Except.instMonad, Except.bind, Except.map]
    · rcases hl : toNmeaDegreesLatitude la with e' | s'
      · simp [rmb, rmbBody, hl, Except.instMonad, Except.bind, Except.map]
      · simp [rmb, rmbBody, hl, hlon, Except.instMonad, Except.bind, Except.map]

theorem C10_rmb_catches_errors_witness :
    toNmeaDegreesLatitude (.num 91) = .error latErrMsg ∧
    rmb none (some (.num 0)) none none none none (some (.num 91, .num 0)) none
      (some (.num 0)) none = none :=
  ⟨lat_91_error,
   C10_rmb_catches_errors.2 none (some (.num 0)) none none none none (.num 91) (.num 0)
     none (some (.num 0)) none (Or.inl lat_91_error)⟩

theorem fieldOk_nil : fieldOk [] := fun c hc => absurd hc (List.not_mem_nil c)

theorem jsStrJoin_fieldOk_count (parts : List (List Char)) (h : ∀ f ∈ parts, fieldOk f)
    (hne : parts ≠ []) : (jsStrJoin parts).count ',' = parts.length - 1 :=
  jsStrJoin_count_comma parts (fun f hf => fieldOk_no_comma f (h f hf)) hne

theorem toSentence_wire_dollar (f0 : List Char) (y : List Char) (ys : List (List Char))
    (hf0 : fieldOk f0) (htail : ∀ f ∈ y :: ys, fieldOk f) :
    ∃ mid, toSentence (('$' :: f0) :: y :: ys) = '$' :: (mid ++ '*' :: checksum mid) ∧
      '*' ∉ mid ∧ mid.count ',' = (y :: ys).length := by
  have hJstar : '*' ∉ jsStrJoin (y :: ys) :=
    jsStrJoin_no_star _ (fun f hf => fieldOk_no_star f (htail f hf))
  have hjoin : jsStrJoin (('$' :: f0) :: y :: ys) =
      '$' :: (f0 ++ ',' :: jsStrJoin (y :: ys)) := by
    rw [jsStrJoin_cons_cons, List.cons_append]
  have hmidstar : '*' ∉ f0 ++ ',' :: jsStrJoin (y :: ys) := by
    intro hc
    rcases List.mem_append.mp hc with h1 | h1
    · exact fieldOk_no_star f0 hf0 h1
    rcases List.mem_cons.mp h1 with h2 | h2
    · exact absurd h2 (by decide)
    · exact hJstar h2
  have hstar : '*' ∉ jsStrJoin (('$' :: f0) :: y :: ys) := by
    rw [hjoin]
    intro hc
    rcases List.mem_cons.mp hc with h1 | h1
    · exact absurd h1 (by decide)
    · exact hmidstar h1
  refine ⟨f0 ++ ',' :: jsStrJoin (y :: ys), toSentence_shape_dollar _ _ hjoin hstar,
    hmidstar, ?_⟩
  have hcnt : (jsStrJoin (y :: ys)).count ',' = (y :: ys).length - 1 :=
    jsStrJoin_fieldOk_count _ htail (by simp)
  rw [List.count_append, List.count_cons, hcnt,
    List.count_eq_zero.mpr (fieldOk_no_comma f0 hf0)]
  simp

theorem toSentence_wire_nodollar (f0 : List Char) (y : List Char) (ys : List (List Char))
    (hhead : (jsStrJoin (f0 :: y :: ys)).head? ≠ some '$')
    (hf0 : fieldOk f0) (htail : ∀ f ∈ y :: ys, fieldOk f) :
    ∃ mid, toSentence (f0 :: y :: ys) = '$' :: (mid ++ '*' :: checksum mid) ∧
      '*' ∉ mid ∧ mid.count ',' = (y :: ys).length := by
  have hall : ∀ f ∈ f0 :: y :: ys, fieldOk f := by
    intro f hf
    rcases List.mem_cons.mp hf with h1 | h1
    · exact h1 ▸ hf0
    · exact htail f h1
  have hstar : '*' ∉ jsStrJoin (f0 :: y :: ys) :=
    jsStrJoin_no_star _ (fun f hf => fieldOk_no_star f (hall f hf))
  refine ⟨jsStrJoin (f0 :: y :: ys), toSentence_shape_nodollar _ hhead hstar, hstar, ?_⟩
  rw [jsStrJoin_fieldOk_count _ hall (by simp)]
  simp

theorem apbMagField_fieldOk (b : Option ℚ) : fieldOk (apbMagField b) := by
  cases b with
  | none => exact fieldOk_nil
  | some x => exact toFixedQ_fieldOk 0 (radsToPositiveDeg x)

theorem rmbRangeField_fieldOk (r : Option JSNum) : fieldOk (rmbRangeField r) := by
  cases r with
  | none => exact fieldOk_nil
  | some v => exact toFixedJ_fieldOk 2 (jsDivC v 1852)

theorem rmbVmgField_fieldOk (v : Option JSNum) : fieldOk (rmbVmgField v) := by
  cases v with
  | none => exact fieldOk_nil
  | some x => exact toFixedJ_fieldOk 2 (jsMulC x (194384 / 100000))

theorem fieldOk_singleton_RL (v : JSNum) : fieldOk [steerChar v] := by
  rcases steerChar_cases v with h | h <;>
    · rw [h]
      unfold fieldOk
      decide

theorem fieldOk_ite_RL (q : ℚ) : fieldOk [if 0 ≤ q then 'R' else 'L'] := by
  by_cases h : 0 ≤ q
  · rw [if_pos h]
    unfold fieldOk
    decide
  · rw [if_neg h]
    unfold fieldOk
    decide

/-- C8 (amended): on inputs whose free-text identifier and environment
strings are wire-safe, each builder returns either no output or exactly one
wire-format string `$<talker><type>,<field>...*HH` whose trailing hex pair
is the checksum of the star-free body, with exactly 14 (APB) resp. 13 (RMB)
commas; APB returns the bare string while RMB wraps its string in a
one-element array. -/
theorem C8_wire_format :
    (∀ env xte trk nxt mag var, optOk env →
      apbF env xte trk nxt mag var = none ∨
      ∃ mid, apbF env xte trk nxt mag var =
          some (.str ('$' :: (mid ++ '*' :: checksum mid))) ∧
        '*' ∉ mid ∧ mid.count ',' = 14) ∧
    (∀ env xte oN oI dN dI dp rng brg vmg,
      optOk oN → optOk oI → optOk dN → optOk dI →
      rmb env xte oN oI dN dI dp rng brg vmg = none ∨
      ∃ mid, rmb env xte oN oI dN dI dp rng brg vmg =
          some (.arr ['$' :: (mid ++ '*' :: checksum mid)]) ∧
        '*' ∉ mid ∧ mid.count ',' = 13) := by
  constructor
  · intro env xte trk nxt mag var henv
    rcases xte with _ | xv
    · exact Or.inl (by simp [apbF])
    cases xv with
    | nan => exact Or.inl (by simp [apbF])
    | num q =>
      rcases htb : (if isFiniteO nxt then nxt else trk) with _ | tb
      · exact Or.inl (by simp [apbF, htb])
      cases tb with
      | nan => exact Or.inl (by simp [apbF, htb])
      | num tbq =>
        right
        have hT : fieldOk (jsToUpper (jsOrStr env ( "GP").toList)) :=
          jsToUpper_fieldOk _ (jsOrStr_fieldOk env _ henv (by unfold fieldOk; decide))
        have hf0 : fieldOk (jsToUpper (jsOrStr env ( "GP").toList) ++ ( "APB").toList) := by
          intro c hc
          rcases List.mem_append.mp hc with h1 | h1
          · exact hT c h1
          · exact (by unfold fieldOk; decide : fieldOk (( "APB").toList)) c h1
        have htail : ∀ f ∈ [([ 'A'] : List Char), [ 'A'],
            toFixedQ 3 |mToNm q|, [if 0 ≤ q then 'R' else 'L'], [ 'N'], [ 'V'], [ 'V'],
            toFixedQ 0 (radsToPositiveDeg tbq), [ 'T'], [ '0', '0'],
            toFixedQ 0 (radsToPositiveDeg tbq), [ 'T'],
            apbMagField (apbBearingMag tbq mag var), [ 'M']], fieldOk f := by
          intro f hf
          simp only [List.mem_cons, List.not_mem_nil, or_false] at hf
          rcases hf with rfl | rfl | rfl | rfl | rfl | rfl | rfl | rfl | rfl | rfl | rfl |
            rfl | rfl | rfl
          · unfold fieldOk; decide
          · unfold fieldOk; decide
          · exact toFixedQ_fieldOk _ _
          · exact fieldOk_ite_RL q
          · unfold fieldOk; decide
          · unfold fieldOk; decide
          · unfold fieldOk; decide
          · exact toFixedQ_fieldOk _ _
          · unfold fieldOk; decide
          · unfold fieldOk; decide
          · exact toFixedQ_fieldOk _ _
          · unfold fieldOk; decide
          · exact apbMagField_fieldOk _
          · unfold fieldOk; decide
        obtain ⟨mid, hm, hs, hcnt⟩ :=
          toSentence_wire_dollar (jsToUpper (jsOrStr env ( "GP").toList) ++ ( "APB").toList)
            ([ 'A']) ([ [ 'A'],
              toFixedQ 3 |mToNm q|, [if 0 ≤ q then 'R' else 'L'], [ 'N'], [ 'V'], [ 'V'],
              toFixedQ 0 (radsToPositiveDeg tbq), [ 'T'], [ '0', '0'],
              toFixedQ 0 (radsToPositiveDeg tbq), [ 'T'],
              apbMagField (apbBearingMag tbq mag var), [ 'M']]) hf0 htail
        refine ⟨mid, ?_, hs, by rw [hcnt]; rfl⟩
        simp only [apbF, htb]
        rw [hm]
  · intro env xte oN oI dN dI dp rng brg vmg hoN hoI hdN hdI
    rcases xte with _ | xv
    · exact Or.inl rfl
    rcases dp with _ | p
    · exact Or.inl rfl
    rcases brg with _ | bv
    · exact Or.inl rfl
    rcases p with ⟨la, lo⟩
    rcases hl : toNmeaDegreesLatitude la with e | latS
    · exact Or.inl (by simp [rmb, rmbBody, hl, Except.instMonad, Except.bind, Except.map])
    rcases hlo : toNmeaDegreesLongitude lo with e | lonS
    · exact Or.inl (by simp [rmb, rmbBody, hl, hlo, Except.instMonad, Except.bind, Except.map])
    right
    obtain ⟨A1, h1c, hA1eq, hA1ok, hh1⟩ := toNmeaDegreesLatitude_shape _ _ hl
    obtain ⟨A2, h2c, hA2eq, hA2ok, hh2⟩ := toNmeaDegreesLongitude_shape _ _ hlo
    subst hA1eq
    subst hA2eq
    have hh1c : ',' ∉ [h1c] ∧ fieldOk [h1c] := by
      rcases hh1 with rfl | rfl <;> exact ⟨by decide, by unfold fieldOk; decide⟩
    have hh2c : ',' ∉ [h2c] ∧ fieldOk [h2c] := by
      rcases hh2 with rfl | rfl <;> exact ⟨by decide, by unfold fieldOk; decide⟩
    have hsp10 : splitCommaGet (A1 ++ ',' :: [h1c]) 0 = A1 :=
      splitCommaGet_zero _ _ (fieldOk_no_comma _ hA1ok)
    have hsp11 : splitCommaGet (A1 ++ ',' :: [h1c]) 1 = [h1c] :=
      splitCommaGet_one _ _ (fieldOk_no_comma _ hA1ok) hh1c.1
    have hsp20 : splitCommaGet (A2 ++ ',' :: [h2c]) 0 = A2 :=
      splitCommaGet_zero _ _ (fieldOk_no_comma _ hA2ok)
    have hsp21 : splitCommaGet (A2 ++ ',' :: [h2c]) 1 = [h2c] :=
      splitCommaGet_one _ _ (fieldOk_no_comma _ hA2ok) hh2c.1
    have hRMBlit : fieldOk (( "RMB").toList) := by unfold fieldOk; decide
    have hf0 : fieldOk (talker env ++ ( "RMB").toList) := by
      intro c hc
      rcases List.mem_append.mp hc with h1 | h1
      · exact talker_fieldOk env c h1
      · exact hRMBlit c h1
    have hhead : (jsStrJoin ((talker env ++ ( "RMB").toList) :: [ 'A'] ::
        [toFixedJ 3 (jsDivC (jsAbs xv) 1852), [steerChar xv],
          jsOrStr oN (jsOrStr oI []), jsOrStr dN (jsOrStr dI (( "WAYPOINT").toList)),
          A1, [h1c], A2, [h2c],
          rmbRangeField rng, toFixedJ 1 (radToDeg360J bv), rmbVmgField vmg,
          [ 'A']])).head? ≠ some '$' := by
      rcases talker_cases env with ht | ht <;>
        · rw [ht]
          intro hcontra
          simp [jsStrJoin_cons_cons] at hcontra
    have htail : ∀ f ∈ ([ 'A'] : List Char) ::
        [toFixedJ 3 (jsDivC (jsAbs xv) 1852), [steerChar xv],
          jsOrStr oN (jsOrStr oI []), jsOrStr dN (jsOrStr dI (( "WAYPOINT").toList)),
          A1, [h1c], A2, [h2c],
          rmbRangeField rng, toFixedJ 1 (radToDeg360J bv), rmbVmgField vmg,
          [ 'A']], fieldOk f := by
      intro f hf
      simp only [List.mem_cons, List.not_mem_nil, or_false] at hf
      rcases hf with rfl | rfl | rfl | rfl | rfl | rfl | rfl | rfl | rfl | rfl | rfl | rfl | rfl
      · unfold fieldOk; decide
      · exact toFixedJ_fieldOk _ _
      · exact fieldOk_singleton_RL xv
      · exact jsOrStr_fieldOk _ _ hoN (jsOrStr_fieldOk _ _ hoI fieldOk_nil)
      · exact jsOrStr_fieldOk _ _ hdN (jsOrStr_fieldOk _ _ hdI (by unfold fieldOk; decide))
      · exact hA1ok
      · exact hh1c.2
      · exact hA2ok
      · exact hh2c.2
      · exact rmbRangeField_fieldOk rng
      · exact toFixedJ_fieldOk _ _
      · exact rmbVmgField_fieldOk vmg
      · unfold fieldOk; decide
    obtain ⟨mid, hm, hs, hcnt⟩ :=
      toSentence_wire_nodollar (talker env ++ ( "RMB").toList) ([ 'A'])
        ([toFixedJ 3 (jsDivC (jsAbs xv) 1852), [steerChar xv],
          jsOrStr oN (jsOrStr oI []), jsOrStr dN (jsOrStr dI (( "WAYPOINT").toList)),
          A1, [h1c], A2, [h2c],
          rmbRangeField rng, toFixedJ 1 (radToDeg360J bv), rmbVmgField vmg,
          [ 'A']]) hhead hf0 htail
    refine ⟨mid, ?_, hs, by rw [hcnt]; rfl⟩
    simp only [rmb, rmbBody, hl, hlo, Except.instMonad, Except.bind, Except.map,
      hsp10, hsp11, hsp20, hsp21]
    rw [hm]
    rfl


theorem C8_wire_format_witness :
    optOk (none : Option (List Char)) ∧
    (rmb none (some (.num 0)) none none none none (some (.num 0, .num 0)) none
        (some (.num 0)) none = none ∨
      ∃ mid, rmb none (some (.num 0)) none none none none (some (.num 0, .num 0)) none
          (some (.num 0)) none =
          some (.arr ['$' :: (mid ++ '*' :: checksum mid)]) ∧
        '*' ∉ mid ∧ mid.count ',' = 13) :=
  ⟨True.intro,
   C8_wire_format.2 none (some (.num 0)) none none none none (some (.num 0, .num 0)) none
     (some (.num 0)) none True.intro True.intro True.intro True.intro⟩

/-- C8 counterexample: the APB builder's output, where produced, is a bare
string and not an array containing one string. -/
theorem C8_apb_not_array :
    (apbF none (some (.num 100)) none (some (.num (15708/10000))) none none).map retIsArr =
      some false ∧
    (apbF none (some (.num 100)) none (some (.num (15708/10000))) none none).isSome = true := by
  rw [apb_eval_c3]
  exact ⟨rfl, rfl⟩

/-! ## Divergence of the normalization loop under binary64 semantics -/

theorem flSubStep_fixed : flSubStep ((2 : ℚ) ^ 80) = (2 : ℚ) ^ 80 := by
  have ha : (2 : ℚ) ^ 80 - 360 = ((2 ^ 80 - 360 : ℕ) : ℚ) := by
    push_cast
    norm_num
  have hlog : Int.log 2 ((2 : ℚ) ^ 80 - 360) = 79 := by
    rw [Int.log_of_one_le_right 2 (by norm_num : (1 : ℚ) ≤ (2 : ℚ) ^ 80 - 360)]
    rw [ha, Nat.floor_natCast]
    exact_mod_cast Nat.log_eq_of_pow_le_of_lt_pow (by norm_num) (by norm_num)
  simp only [flSubStep, fl64pos, hlog]
  have he : (79 : ℤ) - 52 = ((27 : ℕ) : ℤ) := by norm_num
  rw [he, zpow_natCast]
  have hround : round (((2 : ℚ) ^ 80 - 360) / 2 ^ (27 : ℕ)) = 2 ^ 53 := by
    rw [round_eq]
    apply qfloorEq
    · push_cast
      norm_num
    · push_cast
      norm_num
  rw [hround]
  push_cast
  norm_num

/-- C6 (the code bug, under binary64 semantics): from `deg = 2^80` — as
produced by a large finite radians input — every iterate of the rounded
`deg -= 360` step of `radToDeg360`'s second `while` loop returns `deg`
unchanged, because 360 is below half an ulp of `deg`; so the guard
`deg >= 360` still holds after any number of iterations and the loop never
exits, where the claim (and the function's own doc comment) promise a
result in `[0, 360)` for every finite input. -/
theorem C6_float_loop_diverges (n : ℕ) :
    flSubStep^[n] ((2 : ℚ) ^ 80) = (2 : ℚ) ^ 80 ∧
    360 ≤ flSubStep^[n] ((2 : ℚ) ^ 80) := by
  have h := Function.iterate_fixed flSubStep_fixed n
  refine ⟨h, ?_⟩
  rw [h]
  norm_num
